import Mathlib

/-!
Verification development for the create-fred scaffolding tool.

The definitions below are a shallow embedding of the TypeScript source:
`src/utils.ts` (provider registry), `src/model-fetcher.ts` (model fetcher,
template engine and project materializer).  JavaScript strings are embedded
as Lean `String`s, with all character-level operations (case mapping,
lexicographic comparison, substring search) implemented over `String.data`
so that every definition evaluates inside the kernel.  ASCII case mapping
matches the JavaScript `toLowerCase`/`toUpperCase` behaviour on the ASCII
identifiers this program manipulates.
-/

namespace CreateFred
/-- ASCII lower-casing of one character, as JavaScript's `toLowerCase`
acts on ASCII. -/
def jsCharLower (c : Char) : Char :=
  if 'A' ≤ c ∧ c ≤ 'Z' then Char.ofNat (c.toNat + 32) else c

/-- ASCII upper-casing of one character, as JavaScript's `toUpperCase`
acts on ASCII. -/
def jsCharUpper (c : Char) : Char :=
  if 'a' ≤ c ∧ c ≤ 'z' then Char.ofNat (c.toNat - 32) else c

/-- Embedding of `provider.toLowerCase()`. -/
def jsToLower (s : String) : String := ⟨s.data.map jsCharLower⟩

/-- Embedding of `provider.toUpperCase()`. -/
def jsToUpper (s : String) : String := ⟨s.data.map jsCharUpper⟩

/-- Lexicographic comparison of character sequences by code point; this is
the comparison JavaScript's default `Array.prototype.sort` applies to
strings. -/
def listLe (a b : List Char) : Bool :=
  match a, b with
  | [], _ => true
  | _ :: _, [] => false
  | c :: a', d :: b' => if c < d then true else if d < c then false else listLe a' b'

/-- Lexicographic order on embedded JavaScript strings. -/
def strLe (a b : String) : Bool := listLe a.data b.data

/-- Whether `pat` occurs as a contiguous subsequence of `s`; embedding of
JavaScript's `String.prototype.includes`. -/
def listIsSeg (pat : List Char) : List Char → Bool
  | [] => pat.isEmpty
  | c :: rest => pat.isPrefixOf (c :: rest) || listIsSeg pat rest

/-- Embedding of `s.includes(pat)`. -/
def strIncludes (s pat : String) : Bool := listIsSeg pat.data s.data

/-- Embedding of `s.startsWith(pat)`. -/
def strStartsWith (s pat : String) : Bool := pat.data.isPrefixOf s.data

/-! ### Provider registry (`src/utils.ts`)

The three lookup tables are embedded as association lists in source order;
lookup lower-cases the identifier before probing, and falls back to the
synthesized value when the identifier is not a key. -/

/-- The `providerMap` table of `getProviderPackageName`. -/
def providerMap : List (String × String) :=
  [("openai", "@ai-sdk/openai"),
   ("groq", "@ai-sdk/groq"),
   ("anthropic", "@ai-sdk/anthropic"),
   ("google", "@ai-sdk/google"),
   ("mistral", "@ai-sdk/mistral"),
   ("cohere", "@ai-sdk/cohere"),
   ("vercel", "@ai-sdk/vercel"),
   ("azure-openai", "@ai-sdk/azure-openai"),
   ("azure-anthropic", "@ai-sdk/azure-anthropic"),
   ("azure", "@ai-sdk/azure-openai"),
   ("fireworks", "@ai-sdk/fireworks"),
   ("xai", "@ai-sdk/xai"),
   ("ollama", "@ai-sdk/ollama"),
   ("ai21", "@ai-sdk/ai21"),
   ("nvidia", "@ai-sdk/nvidia"),
   ("bedrock", "@ai-sdk/amazon-bedrock"),
   ("amazon-bedrock", "@ai-sdk/amazon-bedrock"),
   ("cloudflare", "@ai-sdk/cloudflare"),
   ("elevenlabs", "@ai-sdk/elevenlabs"),
   ("lepton", "@ai-sdk/lepton"),
   ("perplexity", "@ai-sdk/perplexity"),
   ("replicate", "@ai-sdk/replicate"),
   ("together", "@ai-sdk/together"),
   ("upstash", "@ai-sdk/upstash")]

/-- The `envMap` table of `getProviderEnvVar`. -/
def envMap : List (String × String) :=
  [("openai", "OPENAI_API_KEY"),
   ("groq", "GROQ_API_KEY"),
   ("anthropic", "ANTHROPIC_API_KEY"),
   ("google", "GOOGLE_API_KEY"),
   ("mistral", "MISTRAL_API_KEY"),
   ("cohere", "COHERE_API_KEY"),
   ("vercel", "VERCEL_API_KEY"),
   ("azure-openai", "AZURE_OPENAI_API_KEY"),
   ("azure-anthropic", "AZURE_ANTHROPIC_API_KEY"),
   ("azure", "AZURE_OPENAI_API_KEY"),
   ("fireworks", "FIREWORKS_API_KEY"),
   ("xai", "XAI_API_KEY"),
   ("ollama", "OLLAMA_API_KEY"),
   ("ai21", "AI21_API_KEY"),
   ("nvidia", "NVIDIA_API_KEY"),
   ("bedrock", "AWS_ACCESS_KEY_ID"),
   ("amazon-bedrock", "AWS_ACCESS_KEY_ID"),
   ("cloudflare", "CLOUDFLARE_API_KEY"),
   ("elevenlabs", "ELEVENLABS_API_KEY"),
   ("lepton", "LEPTON_API_KEY"),
   ("perplexity", "PERPLEXITY_API_KEY"),
   ("replicate", "REPLICATE_API_KEY"),
   ("together", "TOGETHER_API_KEY"),
   ("upstash", "UPSTASH_API_KEY")]

/-- The `modelMap` table of `getDefaultModel`. -/
def modelMap : List (String × String) :=
  [("openai", "gpt-4o-mini"),
   ("groq", "llama-3.1-70b-versatile"),
   ("anthropic", "claude-3-5-sonnet-20241022"),
   ("google", "gemini-1.5-flash"),
   ("mistral", "mistral-small-latest"),
   ("cohere", "command-r"),
   ("vercel", "claude-3-5-sonnet-20241022"),
   ("azure-openai", "gpt-4o-mini"),
   ("azure-anthropic", "claude-3-5-sonnet-20241022"),
   ("azure", "gpt-4o-mini"),
   ("fireworks", "llama-v3-70b-instruct"),
   ("xai", "grok-beta"),
   ("ollama", "llama3.2"),
   ("ai21", "j2-ultra"),
   ("nvidia", "meta/llama-3-70b-instruct"),
   ("bedrock", "anthropic.claude-3-5-sonnet-20241022-v2:0"),
   ("amazon-bedrock", "anthropic.claude-3-5-sonnet-20241022-v2:0"),
   ("cloudflare", "llama-3-70b-instruct"),
   ("elevenlabs", "eleven_turbo_v2_5"),
   ("lepton", "llama-3-70b-instruct"),
   ("perplexity", "llama-3.1-sonar-large-128k-online"),
   ("replicate", "meta/llama-3-70b-instruct"),
   ("together", "meta/llama-3-70b-instruct"),
   ("upstash", "meta/llama-3-70b-instruct")]

/-- Own-property probe of a plain object literal: the string value stored
under `k`, if `k` is one of the literal's own keys.  This is only the
own-property part of a JavaScript bracket lookup; the full probe,
including the `Object.prototype` chain that `map[key]` also consults, is
`jsRegistryProbe` below.  The string-typed registry functions built on
this probe coincide with the faithful bracket-lookup semantics on every
identifier that does not name an inherited `Object.prototype` member
(theorem `registry_js_agrees`). -/
def lookupMap (m : List (String × String)) (k : String) : Option String :=
  (m.find? (fun p => p.1 == k)).map (fun p => p.2)

/-- Embedding of `getProviderPackageName` from `src/utils.ts`. -/
def getProviderPackageName (provider : String) : String :=
  (lookupMap providerMap (jsToLower provider)).getD ("@ai-sdk/" ++ jsToLower provider)

/-- Embedding of `getProviderEnvVar` from `src/utils.ts`. -/
def getProviderEnvVar (provider : String) : String :=
  (lookupMap envMap (jsToLower provider)).getD (jsToUpper provider ++ "_API_KEY")

/-- Embedding of `getDefaultModel` from `src/utils.ts`. -/
def getDefaultModel (provider : String) : String :=
  (lookupMap modelMap (jsToLower provider)).getD "gpt-4o-mini"

/-- The fixed supported identifier set: the common key list of the three
registry tables. -/
def supportedProviders : List String :=
  ["openai", "groq", "anthropic", "google", "mistral", "cohere", "vercel",
   "azure-openai", "azure-anthropic", "azure", "fireworks", "xai", "ollama",
   "ai21", "nvidia", "bedrock", "amazon-bedrock", "cloudflare", "elevenlabs",
   "lepton", "perplexity", "replicate", "together", "upstash"]

/-- A value a JavaScript bracket lookup on one of the registry object
literals can produce: an own string property of the table, or an
inherited `Object.prototype` member (a function, or for the accessor
`__proto__` an object) reached through the prototype chain. -/
inductive JsVal
  | str (s : String)
  | protoMember (name : String)
deriving DecidableEq

/-- The own property names of `Object.prototype`, inherited by every
plain object literal: probing a registry table with one of these names
yields the inherited member, not `undefined`. -/
def objectProtoPropNames : List String :=
  ["constructor", "hasOwnProperty", "isPrototypeOf", "propertyIsEnumerable",
   "toLocaleString", "toString", "valueOf",
   "__defineGetter__", "__defineSetter__", "__lookupGetter__", "__lookupSetter__",
   "__proto__"]

/-- Faithful embedding of the bracket probe `m[k]` on a plain object
literal: an own property wins, otherwise the `Object.prototype` chain is
consulted, and only then is the result `undefined` (modeled `none`). -/
def jsRegistryProbe (m : List (String × String)) (k : String) : Option JsVal :=
  match (m.find? (fun p => p.1 == k)).map (fun p => p.2) with
  | some v => some (JsVal.str v)
  | none => if k ∈ objectProtoPropNames then some (JsVal.protoMember k) else none

/-- Faithful embedding of `getProviderPackageName`: the probe's value if
it is truthy (every own table value is a nonempty string and every
inherited member is a function or object, so all probe hits are truthy),
else the synthesized fallback of the `||`. -/
def getProviderPackageNameJs (provider : String) : JsVal :=
  (jsRegistryProbe providerMap (jsToLower provider)).getD
    (JsVal.str ("@ai-sdk/" ++ jsToLower provider))

/-- Faithful embedding of `getProviderEnvVar` with the prototype chain. -/
def getProviderEnvVarJs (provider : String) : JsVal :=
  (jsRegistryProbe envMap (jsToLower provider)).getD
    (JsVal.str (jsToUpper provider ++ "_API_KEY"))

/-- Faithful embedding of `getDefaultModel` with the prototype chain. -/
def getDefaultModelJs (provider : String) : JsVal :=
  (jsRegistryProbe modelMap (jsToLower provider)).getD (JsVal.str "gpt-4o-mini")

/-! ### Model fetcher (`src/model-fetcher.ts`)

The HTTP transport is abstracted as a `FetchOutcome` input: either a
network/transport failure or a response with a success flag, a status code
and a parsed JSON body.  JSON bodies are drawn from a universe of null,
string, array and object values; array elements carrying a model
identifier are modeled as objects with a string-valued field (elements of
any other shape land on the thrown-`TypeError` path, as the JavaScript
property accesses and method calls do).  An adapter that throws is an
`Except.error`; the dispatcher's `try`/`catch` is the match on that
`Except`. -/

/-- Parsed JSON value universe for modeled provider responses. -/
inductive Jv
  | null
  | str (s : String)
  | arr (xs : List Jv)
  | obj (fields : List (String × Jv))

/-- Outcome of the single `fetch` call an adapter performs. -/
inductive FetchOutcome
  | networkError (msg : String)
  | response (ok : Bool) (status : Nat) (body : Jv)

/-- Embedding of a guarded property access `data.field` followed by
optional chaining: accessing a property of `null` throws, a present
`null` field behaves like an absent one under `?.`, and non-object
values yield `undefined` (modeled as `none`). -/
def jsGetOpt : Jv → String → Except String (Option Jv)
  | .null, _ => .error "TypeError"
  | .obj fs, k =>
    match (fs.find? (fun p => p.1 == k)).map (fun p => p.2) with
    | some Jv.null => .ok none
    | some v => .ok (some v)
    | none => .ok none
  | _, _ => .ok none

/-- String-valued field of a model element; any other element shape makes
the JavaScript pipeline throw a `TypeError`. -/
def getStrField (v : Jv) (k : String) : Option String :=
  match v with
  | .obj fs =>
    match fs.find? (fun p => p.1 == k) with
    | some (_, .str s) => some s
    | _ => none
  | _ => none

/-- Extract the string-valued field `k` from every array element, or fail
as the JavaScript callbacks do on a non-conforming element. -/
def extractStrFields (k : String) : List Jv → Option (List String)
  | [] => some []
  | v :: rest =>
    match getStrField v k with
    | none => none
    | some s => (extractStrFields k rest).map (fun l => s :: l)

/-- Stable insertion of an element into a list, ahead of the first
element it compares less-or-equal to. -/
def insertLe (x : String) : List String → List String
  | [] => [x]
  | y :: ys => if strLe x y = true then x :: y :: ys else y :: insertLe x ys

/-- Embedding of the default `Array.prototype.sort` on a string array: a
stable sort by lexicographic code-point comparison (any stable sorting
algorithm under the same total comparison yields this same list). -/
def sortStr : List String → List String
  | [] => []
  | x :: xs => insertLe x (sortStr xs)

/-- Shared shape of the seven endpoint adapters that read a top-level
array field, extract a string field of each element, filter and sort:
network failure and non-success statuses rethrow, a missing (or `null`)
top-level field yields `null` (absence), a non-array field or a
non-conforming element throws, and a successful parse returns the
filtered, sorted identifiers (an empty result array is still returned,
since `[] || null` keeps the empty array). -/
def listEndpointAdapter (errPrefix : String) (topField idField : String)
    (keep : String → Bool) (o : FetchOutcome) : Except String (Option (List String)) :=
  match o with
  | .networkError msg => .error (errPrefix ++ msg)
  | .response ok status body =>
    if ok = false then .error (errPrefix ++ "API error: " ++ toString status)
    else
      match jsGetOpt body topField with
      | .error e => .error (errPrefix ++ e)
      | .ok none => .ok none
      | .ok (some (Jv.arr xs)) =>
        match extractStrFields idField xs with
        | none => .error (errPrefix ++ "TypeError")
        | some ids => .ok (some (sortStr (ids.filter keep)))
      | .ok (some _) => .error (errPrefix ++ "TypeError")

/-- Embedding of `fetchOpenAIModels`: chat-model filter on the lowercased
identifier, then sort. -/
def fetchOpenAIModels (_apiKey : String) (o : FetchOutcome) : Except String (Option (List String)) :=
  listEndpointAdapter "Failed to fetch OpenAI models: " "data" "id"
    (fun id =>
      strStartsWith (jsToLower id) "gpt-" &&
      !strIncludes (jsToLower id) "instruct" &&
      !strIncludes (jsToLower id) "vision" &&
      !strIncludes (jsToLower id) "embedding") o

/-- Embedding of `fetchGroqModels`: drops identifiers containing
"embedding", then sorts. -/
def fetchGroqModels (_apiKey : String) (o : FetchOutcome) : Except String (Option (List String)) :=
  listEndpointAdapter "Failed to fetch Groq models: " "data" "id"
    (fun id => !strIncludes id "embedding") o

/-- Embedding of `fetchAnthropicModels`: no network call; the credential's
shape is checked locally and a fixed curated list is returned. -/
def fetchAnthropicModels (apiKey : String) : Except String (Option (List String)) :=
  if strStartsWith apiKey "sk-ant-" = false then
    .error "Invalid Anthropic API key format"
  else
    .ok (some ["claude-3-5-sonnet-20241022",
               "claude-3-opus-20240229",
               "claude-3-sonnet-20240229",
               "claude-3-haiku-20240307"])

/-- Replace the first occurrence of `pat` in a character sequence;
embedding of `String.prototype.replace` with a plain string pattern and a
dollar-free replacement, as in the Google adapter's name normalization. -/
def replaceFirst (pat repl : List Char) : List Char → List Char
  | [] => []
  | c :: rest =>
    if pat ≠ [] && pat.isPrefixOf (c :: rest) then
      repl ++ (c :: rest).drop pat.length
    else
      c :: replaceFirst pat repl rest

/-- Embedding of `fetchGoogleModels`: keeps Gemini non-embedding entries
by their lowercased name, strips the "models/" prefix, sorts. -/
def fetchGoogleModels (_apiKey : String) (o : FetchOutcome) : Except String (Option (List String)) :=
  match o with
  | .networkError msg => .error ("Failed to fetch Google models: " ++ msg)
  | .response ok status body =>
    if ok = false then .error ("Failed to fetch Google models: API error: " ++ toString status)
    else
      match jsGetOpt body "models" with
      | .error e => .error ("Failed to fetch Google models: " ++ e)
      | .ok none => .ok none
      | .ok (some (Jv.arr xs)) =>
        match extractStrFields "name" xs with
        | none => .error ("Failed to fetch Google models: TypeError")
        | some names =>
          .ok (some (sortStr
            (((names.filter (fun name =>
                strIncludes (jsToLower name) "gemini" &&
                !strIncludes (jsToLower name) "embedding"))).map
              (fun name => String.mk (replaceFirst "models/".data [] name.data)))))
      | .ok (some _) => .error ("Failed to fetch Google models: TypeError")

/-- Embedding of `fetchMistralModels`: drops identifiers containing
"embed", then sorts. -/
def fetchMistralModels (_apiKey : String) (o : FetchOutcome) : Except String (Option (List String)) :=
  listEndpointAdapter "Failed to fetch Mistral models: " "data" "id"
    (fun id => !strIncludes id "embed") o

/-- Embedding of `fetchCohereModels`: keeps names whose lowercased form
contains "command" or "chat", then sorts. -/
def fetchCohereModels (_apiKey : String) (o : FetchOutcome) : Except String (Option (List String)) :=
  listEndpointAdapter "Failed to fetch Cohere models: " "models" "name"
    (fun name => strIncludes (jsToLower name) "command" || strIncludes (jsToLower name) "chat") o

/-- Embedding of `fetchFireworksModels`: drops identifiers containing
"embed", then sorts. -/
def fetchFireworksModels (_apiKey : String) (o : FetchOutcome) : Except String (Option (List String)) :=
  listEndpointAdapter "Failed to fetch Fireworks models: " "data" "id"
    (fun id => !strIncludes id "embed") o

/-- Embedding of `fetchXaiModels`: all identifiers, sorted. -/
def fetchXaiModels (_apiKey : String) (o : FetchOutcome) : Except String (Option (List String)) :=
  listEndpointAdapter "Failed to fetch xAI models: " "data" "id" (fun _ => true) o

/-- Embedding of `fetchPerplexityModels`: all identifiers, sorted. -/
def fetchPerplexityModels (_apiKey : String) (o : FetchOutcome) : Except String (Option (List String)) :=
  listEndpointAdapter "Failed to fetch Perplexity models: " "data" "id" (fun _ => true) o

/-- The provider switch of `fetchModelsFromProvider`: the thrown-or-value
result of the selected adapter, with the default case returning the
absence value directly (no adapter, no network call). -/
def adapterRun (provider apiKey : String) (o : FetchOutcome) : Except String (Option (List String)) :=
  match jsToLower provider with
  | "openai" => fetchOpenAIModels apiKey o
  | "groq" => fetchGroqModels apiKey o
  | "anthropic" => fetchAnthropicModels apiKey
  | "google" => fetchGoogleModels apiKey o
  | "mistral" => fetchMistralModels apiKey o
  | "cohere" => fetchCohereModels apiKey o
  | "fireworks" => fetchFireworksModels apiKey o
  | "xai" => fetchXaiModels apiKey o
  | "perplexity" => fetchPerplexityModels apiKey o
  | _ => .ok none

/-- Embedding of `fetchModelsFromProvider`: the `try`/`catch` around the
switch converts any thrown error to `null`, and a missing or empty model
list also becomes `null`. -/
def fetchModelsFromProvider (provider apiKey : String) (o : FetchOutcome) : Option (List String) :=
  match adapterRun provider apiKey o with
  | .error _ => none
  | .ok none => none
  | .ok (some models) => if 0 < models.length then some models else none

/-- Whether an adapter outcome is a thrown error. -/
def adapterThrew : Except String (Option (List String)) → Bool
  | .error _ => true
  | .ok _ => false

/-! ### Template engine (`src/model-fetcher.ts`, `processTemplate`)

`processTemplate` loops over the seven template variables in declaration
order and applies a global regex replacement of the literal token
`{{NAME}}` by the variable's value.  JavaScript's `String.prototype.replace`
interprets `$`-escapes inside a string replacement ( `$$`, `$&`, a
backquote or quote after `$` ), so the embedding carries the consumed
original prefix through the scan and applies the full substitution
semantics at each match. -/

/-- The left brace character (code point 123). -/
def lbrace : Char := Char.ofNat 123

/-- The right brace character (code point 125). -/
def rbrace : Char := Char.ofNat 125

/-- The backquote character (code point 96). -/
def backquote : Char := Char.ofNat 96

/-- The placeholder token of a variable: its name wrapped in double
braces. -/
def token (name : String) : List Char :=
  lbrace :: lbrace :: name.data ++ [rbrace, rbrace]

/-- ECMAScript `GetSubstitution` for a capture-group-free pattern:
`$$` yields a dollar, `$&` the matched text, a backquoted `$`-escape the
original text before the match, a quoted one the original text after the
match, and any other `$` stays literal. -/
def getSubstitution (matched pre post : List Char) : List Char → List Char
  | [] => []
  | [c] => [c]
  | c :: d :: rest =>
    if c = '$' then
      if d = '$' then '$' :: getSubstitution matched pre post rest
      else if d = '&' then matched ++ getSubstitution matched pre post rest
      else if d = backquote then pre ++ getSubstitution matched pre post rest
      else if d = '\'' then post ++ getSubstitution matched pre post rest
      else '$' :: getSubstitution matched pre post (d :: rest)
    else c :: getSubstitution matched pre post (d :: rest)

/-- Scan of a global literal-pattern replacement: at each position, a
match consumes the pattern, emits the substituted replacement and
continues after it; otherwise one character is copied.  `pre` is the
already-consumed original prefix (needed by the `$`-escapes). -/
def jsReplaceGo (pat repl : List Char) (pre : List Char) : List Char → List Char
  | [] => []
  | c :: rest =>
    if h : pat ≠ [] ∧ pat.isPrefixOf (c :: rest) then
      getSubstitution pat pre ((c :: rest).drop pat.length) repl ++
        jsReplaceGo pat repl (pre ++ pat) ((c :: rest).drop pat.length)
    else
      c :: jsReplaceGo pat repl (pre ++ [c]) rest
termination_by s => s.length
decreasing_by
  · have hp : 0 < pat.length := List.length_pos.mpr h.1
    simp only [List.length_drop, List.length_cons]
    omega
  · simp

/-- Embedding of `content.replace(new RegExp(escapedPattern, 'g'), repl)`
for a nonempty literal pattern. -/
def jsReplace (pat repl s : List Char) : List Char := jsReplaceGo pat repl [] s

/-- The `TemplateVariables` record: the seven recognized template
variables, in declaration order. -/
structure TemplateVariables where
  PROJECT_NAME : String
  PROVIDER : String
  MODEL : String
  PROVIDER_PACKAGE : String
  ENV_VAR_NAME : String
  API_KEY_PLACEHOLDER : String
  FRED_VERSION : String

/-- `Object.entries(vars)`: the name/value pairs in declaration order. -/
def TemplateVariables.entries (v : TemplateVariables) : List (String × String) :=
  [("PROJECT_NAME", v.PROJECT_NAME),
   ("PROVIDER", v.PROVIDER),
   ("MODEL", v.MODEL),
   ("PROVIDER_PACKAGE", v.PROVIDER_PACKAGE),
   ("ENV_VAR_NAME", v.ENV_VAR_NAME),
   ("API_KEY_PLACEHOLDER", v.API_KEY_PLACEHOLDER),
   ("FRED_VERSION", v.FRED_VERSION)]

/-- The fixed list of recognized variable names. -/
def varNames : List String :=
  ["PROJECT_NAME", "PROVIDER", "MODEL", "PROVIDER_PACKAGE",
   "ENV_VAR_NAME", "API_KEY_PLACEHOLDER", "FRED_VERSION"]

/-- One global token replacement per entry, applied sequentially in entry
order over the whole content. -/
def applyReplacements (entries : List (String × String)) (content : List Char) : List Char :=
  entries.foldl (fun acc kv => jsReplace (token kv.1) kv.2.data acc) content

/-- Embedding of `processTemplate`: the sequential per-variable global
replacement loop, in declaration order of the record. -/
def processTemplate (content : String) (vars : TemplateVariables) : String :=
  ⟨applyReplacements vars.entries content.data⟩

/-- The specification's reading of `render`: one simultaneous left-to-right
scan of the content that replaces every occurrence of each supplied
variable's token by that variable's exact value (inserted text is not
rescanned) and copies all other text unchanged. -/
def renderSimultaneous (entries : List (String × String)) : List Char → List Char
  | [] => []
  | c :: rest =>
    match entries.find? (fun kv => (token kv.1).isPrefixOf (c :: rest)) with
    | some kv => kv.2.data ++ renderSimultaneous entries ((c :: rest).drop (token kv.1).length)
    | none => c :: renderSimultaneous entries rest
termination_by s => s.length
decreasing_by
  · simp only [List.length_drop, List.length_cons, token, List.length_append]
    omega
  · simp

/-- The specification's `render` on embedded strings. -/
def renderSimultaneousStr (content : String) (vars : TemplateVariables) : String :=
  ⟨renderSimultaneous vars.entries content.data⟩

/-- Sequential replacement under an arbitrary entry order (the record's
own declaration order recovers `processTemplate`). -/
def processTemplateWithOrder (entries : List (String × String)) (content : String) : String :=
  ⟨applyReplacements entries content.data⟩

/-! Decomposition of template contents into literal segments and
placeholder-token occurrences, used to state the conditions under which
the sequential replacement loop agrees with the specification's
simultaneous reading. -/

/-- A content segment: a stretch of literal text or one placeholder
token occurrence. -/
inductive Seg
  | lit (s : List Char)
  | tok (name : String)

/-- Concatenation of a segment list back into content text. -/
def flatSegs : List Seg → List Char
  | [] => []
  | Seg.lit s :: gs => s ++ flatSegs gs
  | Seg.tok n :: gs => token n ++ flatSegs gs

/-- No left-brace character occurs in the text. -/
def noLBrace (s : List Char) : Prop := ∀ c ∈ s, c ≠ lbrace

/-- No brace character occurs in the text. -/
def braceFree (s : List Char) : Prop := ∀ c ∈ s, c ≠ lbrace ∧ c ≠ rbrace

/-- No dollar character occurs in the text. -/
def dollarFree (s : List Char) : Prop := ∀ c ∈ s, c ≠ '$'

/-- A well-formed variable name: nonempty and free of braces. -/
def goodName (n : String) : Prop := braceFree n.data ∧ n.data ≠ []

/-- Well-formedness of a segment: literal stretches contain no left
brace, token names are well-formed. -/
def segOK : Seg → Prop
  | Seg.lit s => noLBrace s
  | Seg.tok n => goodName n

instance : DecidablePred noLBrace := fun s =>
  (inferInstance : Decidable (∀ c ∈ s, c ≠ lbrace))

instance : DecidablePred braceFree := fun s =>
  (inferInstance : Decidable (∀ c ∈ s, c ≠ lbrace ∧ c ≠ rbrace))

instance : DecidablePred dollarFree := fun s =>
  (inferInstance : Decidable (∀ c ∈ s, c ≠ '$'))

instance : DecidablePred goodName := fun n =>
  (inferInstance : Decidable (braceFree n.data ∧ n.data ≠ []))

instance : DecidablePred segOK := fun g =>
  match g with
  | Seg.lit s => (inferInstance : Decidable (noLBrace s))
  | Seg.tok n => (inferInstance : Decidable (goodName n))

/-- Replacing one variable, at segment level: its token occurrences turn
into literal stretches holding its value, all else is unchanged. -/
def stageSeg (n v : String) : Seg → Seg
  | Seg.lit s => Seg.lit s
  | Seg.tok m => if m = n then Seg.lit v.data else Seg.tok m

/-- The sequential replacement loop at segment level. -/
def applyStages (entries : List (String × String)) (g : Seg) : Seg :=
  entries.foldl (fun g kv => stageSeg kv.1 kv.2 g) g

/-- The simultaneous replacement at segment level: a token occurrence is
replaced by the first entry carrying its name, if any. -/
def simulSeg (entries : List (String × String)) : Seg → Seg
  | Seg.lit s => Seg.lit s
  | Seg.tok m =>
    match entries.find? (fun kv => kv.1 == m) with
    | some kv => Seg.lit kv.2.data
    | none => Seg.tok m

/-- All seven values of a variable set are free of left braces and
dollars. -/
def cleanValues (vars : TemplateVariables) : Prop :=
  ∀ kv ∈ vars.entries, noLBrace kv.2.data ∧ dollarFree kv.2.data

instance (vars : TemplateVariables) : Decidable (cleanValues vars) :=
  (inferInstance : Decidable (∀ kv ∈ vars.entries, noLBrace kv.2.data ∧ dollarFree kv.2.data))

/-- A concrete variable set whose `PROVIDER` value is itself the `MODEL`
placeholder token, exhibiting the cascade of the sequential loop. -/
def cascadeVars : TemplateVariables :=
  ⟨"p", ⟨token "MODEL"⟩, "x", "q", "e", "a", "l"⟩

/-- A well-formed concrete decomposition: literal text around one
`PROJECT_NAME` token. -/
def witnessSegs : List Seg :=
  [Seg.lit "Hello ".data, Seg.tok "PROJECT_NAME", Seg.lit "!".data]

/-- A concrete clean variable set. -/
def witnessVars : TemplateVariables :=
  ⟨"world", "openai", "gpt-4", "pkg", "ENVV", "key", "latest"⟩

/-! ### Project materializer (`src/model-fetcher.ts`, `generateProject`)

The filesystem is modeled by its observable effect: the ordered list of
file writes performed (destination path and byte content), plus the
error, if any, that aborted the walk.  The template store is an input
mapping template-relative paths to file contents (`none` = the file does
not exist under the resolved template root); directory creation has no
bearing on the claims and is not tracked. -/

/-- The `ProjectOptions` record of `src/prompts.ts`. -/
structure ProjectOptions where
  projectName : String
  provider : String
  model : String
  apiKey : Option String
  includeExamples : Bool
  skipInstall : Bool

/-- Embedding of `getTemplateVariables`: the credential placeholder uses
the supplied key only when it is truthy (defined and nonempty). -/
def getTemplateVariables (options : ProjectOptions) : TemplateVariables :=
  ⟨options.projectName,
   options.provider,
   options.model,
   getProviderPackageName options.provider,
   getProviderEnvVar options.provider,
   (match options.apiKey with
    | some k => if k = "" then "your-api-key-here" else k
    | none => "your-api-key-here"),
   "latest"⟩

/-- The ten core manifest entries, in source order. -/
def coreManifest : List (String × String) :=
  [("package.json.template", "package.json"),
   ("tsconfig.json.template", "tsconfig.json"),
   ("flox.nix.template", "flox.nix"),
   (".env.example.template", ".env.example"),
   (".gitignore.template", ".gitignore"),
   ("README.md.template", "README.md"),
   ("src/index.ts.template", "src/index.ts"),
   ("src/dev-chat.ts.template", "src/dev-chat.ts"),
   ("src/server.ts.template", "src/server.ts"),
   ("src/config.json.template", "src/config.json")]

/-- The three example-subset manifest entries. -/
def exampleManifest : List (String × String) :=
  [("src/tools/example-tool.ts.template", "src/tools/example-tool.ts"),
   ("src/agents/default-agent.ts.template", "src/agents/default-agent.ts"),
   ("src/examples/basic.ts.template", "src/examples/basic.ts")]

/-- The manifest walked for a generation run: the core entries, plus the
example subset when the flag is set. -/
def projectFiles (includeExamples : Bool) : List (String × String) :=
  coreManifest ++ (if includeExamples then exampleManifest else [])

/-- Path concatenation, as `join(destPath, file)` produces on the
slash-separated relative paths of the manifest. -/
def pathJoin (a b : String) : String := a ++ "/" ++ b

/-- Result of a materialization run: the writes performed, in order, and
the error that aborted the walk, if any. -/
structure GenResult where
  writes : List (String × String)
  err : Option String

/-- The manifest walk: each entry's template is read (failing the run
with the lookup error if absent), rendered, and written; the writes of
entries before a failure remain recorded. -/
def runManifest (tfs : String → Option String) (templateDir destPath : String)
    (vars : TemplateVariables) : List (String × String) → GenResult
  | [] => ⟨[], none⟩
  | (tpl, dstFile) :: rest =>
    match tfs tpl with
    | none => ⟨[], some ("Template file not found: " ++ pathJoin templateDir tpl)⟩
    | some content =>
      let r := runManifest tfs templateDir destPath vars rest
      ⟨(pathJoin destPath dstFile, processTemplate content vars) :: r.writes, r.err⟩

/-- The step after the manifest loop: when the walk succeeded and a
truthy credential was supplied, append the `.env` write. -/
def finishRun (destPath : String) (options : ProjectOptions) (vars : TemplateVariables)
    (r : GenResult) : GenResult :=
  match r.err with
  | some _ => r
  | none =>
    match options.apiKey with
    | some k =>
      if k = "" then r
      else ⟨r.writes ++ [(pathJoin destPath ".env", vars.ENV_VAR_NAME ++ "=" ++ k ++ "\n")],
            none⟩
    | none => r

/-- Embedding of `generateProject`: derive the variables, walk the
manifest, and append the `.env` write when (and only when) a truthy
credential was supplied and the walk succeeded. -/
def generateProject (tfs : String → Option String) (templateDir destPath : String)
    (options : ProjectOptions) : GenResult :=
  finishRun destPath options (getTemplateVariables options)
    (runManifest tfs templateDir destPath (getTemplateVariables options)
      (projectFiles options.includeExamples))

/-- The rendered write of one manifest entry. -/
def renderEntry (tfs : String → Option String) (destPath : String)
    (vars : TemplateVariables) (p : String × String) : String × String :=
  (pathJoin destPath p.2, processTemplate ((tfs p.1).getD "") vars)

theorem providerMap_keys : providerMap.map Prod.fst = supportedProviders := by decide

theorem envMap_keys : envMap.map Prod.fst = supportedProviders := by decide

theorem modelMap_keys : modelMap.map Prod.fst = supportedProviders := by decide

theorem lookupMap_eq_none {m : List (String × String)} {k : String}
    (h : k ∉ m.map Prod.fst) : lookupMap m k = none := by
  unfold lookupMap
  rw [List.find?_eq_none.mpr]
  · rfl
  · intro p hp hbeq
    exact h (List.mem_map.mpr ⟨p, hp, beq_iff_eq.mp hbeq⟩)

theorem jsRegistryProbe_eq_none {m : List (String × String)} {k : String}
    (h : k ∉ m.map Prod.fst) (hp : k ∉ objectProtoPropNames) :
    jsRegistryProbe m k = none := by
  have hl : (m.find? (fun p => p.1 == k)).map (fun p => p.2) = none := lookupMap_eq_none h
  unfold jsRegistryProbe
  rw [hl]
  rw [if_neg hp]

theorem jsProbe_agrees {m : List (String × String)} {k : String}
    (hp : k ∉ objectProtoPropNames) (fb : String) :
    (jsRegistryProbe m k).getD (JsVal.str fb) = JsVal.str ((lookupMap m k).getD fb) := by
  unfold jsRegistryProbe lookupMap
  cases hl : (m.find? (fun p => p.1 == k)).map (fun p => p.2) with
  | some v => rfl
  | none =>
    rw [if_neg hp]
    rfl

/-- On every identifier whose lowercasing does not name an inherited
`Object.prototype` member, the faithful bracket-lookup registry functions
coincide with the string-typed own-property model used by the rest of the
development. -/
theorem registry_js_agrees (x : String) (hp : jsToLower x ∉ objectProtoPropNames) :
    getProviderPackageNameJs x = JsVal.str (getProviderPackageName x) ∧
    getProviderEnvVarJs x = JsVal.str (getProviderEnvVar x) ∧
    getDefaultModelJs x = JsVal.str (getDefaultModel x) :=
  ⟨jsProbe_agrees hp _, jsProbe_agrees hp _, jsProbe_agrees hp _⟩

/-- Counterexample to C3 as stated: the identifier "constructor" is
outside the supported set, yet the bracket probe finds the inherited
`Object.prototype.constructor` member — a truthy function, so the
fallback of the `||` never fires — and none of the three functions
returns its synthesized value there (likewise for "toString",
"valueOf", the underscore-proto names, and the other inherited member
names). -/
theorem registry_proto_cex :
    jsToLower "constructor" ∉ supportedProviders ∧
    getProviderPackageNameJs "constructor" = JsVal.protoMember "constructor" ∧
    getProviderEnvVarJs "constructor" = JsVal.protoMember "constructor" ∧
    getDefaultModelJs "constructor" = JsVal.protoMember "constructor" ∧
    getProviderPackageNameJs "constructor" ≠ JsVal.str ("@ai-sdk/" ++ jsToLower "constructor") ∧
    getProviderEnvVarJs "constructor" ≠ JsVal.str (jsToUpper "constructor" ++ "_API_KEY") ∧
    getDefaultModelJs "constructor" ≠ JsVal.str "gpt-4o-mini" := by
  decide

/-- C3 amended: for every provider identifier whose lowercasing is
neither a supported table key nor the name of an inherited
`Object.prototype` member, the registry synthesizes the descriptor
deterministically: the package name is the lowercased identifier under
the fixed scope prefix, the environment variable is the uppercased
identifier followed by the `_API_KEY` suffix, and the default model is
the global fallback constant.  For identifiers naming an inherited
member ("constructor", "toString", ...) the bracket probe returns that
truthy inherited member instead and the fallback never fires.  The
functions never throw on any input: every probe yields either a value
or the synthesized fallback. -/
theorem registry_unknown_fallback (x : String)
    (h : jsToLower x ∉ supportedProviders)
    (hp : jsToLower x ∉ objectProtoPropNames) :
    getProviderPackageNameJs x = JsVal.str ("@ai-sdk/" ++ jsToLower x) ∧
    getProviderEnvVarJs x = JsVal.str (jsToUpper x ++ "_API_KEY") ∧
    getDefaultModelJs x = JsVal.str "gpt-4o-mini" := by
  refine ⟨?_, ?_, ?_⟩
  · unfold getProviderPackageNameJs
    rw [jsRegistryProbe_eq_none (by rw [providerMap_keys]; exact h) hp]
    rfl
  · unfold getProviderEnvVarJs
    rw [jsRegistryProbe_eq_none (by rw [envMap_keys]; exact h) hp]
    rfl
  · unfold getDefaultModelJs
    rw [jsRegistryProbe_eq_none (by rw [modelMap_keys]; exact h) hp]
    rfl

/-- Witness for the amended C3 at the concrete unknown identifier
"DeepSeek", which names no inherited member. -/
theorem registry_unknown_fallback_witness :
    (jsToLower "DeepSeek" ∉ supportedProviders ∧
     jsToLower "DeepSeek" ∉ objectProtoPropNames) ∧
    (getProviderPackageNameJs "DeepSeek" = JsVal.str ("@ai-sdk/" ++ jsToLower "DeepSeek") ∧
     getProviderEnvVarJs "DeepSeek" = JsVal.str (jsToUpper "DeepSeek" ++ "_API_KEY") ∧
     getDefaultModelJs "DeepSeek" = JsVal.str "gpt-4o-mini") :=
  ⟨⟨by decide, by decide⟩,
   registry_unknown_fallback "DeepSeek" (by decide) (by decide)⟩

/-- C4: on every identifier of the fixed supported set, each of the three
registry functions is case-insensitive: it returns the same value on the
identifier, its uppercased form and its lowercased form. -/
theorem registry_case_insensitive (id : String)
    (h : id ∈ supportedProviders) :
    getProviderPackageName id = getProviderPackageName (jsToUpper id) ∧
    getProviderPackageName id = getProviderPackageName (jsToLower id) ∧
    getProviderEnvVar id = getProviderEnvVar (jsToUpper id) ∧
    getProviderEnvVar id = getProviderEnvVar (jsToLower id) ∧
    getDefaultModel id = getDefaultModel (jsToUpper id) ∧
    getDefaultModel id = getDefaultModel (jsToLower id) := by
  revert h
  revert id
  decide

/-- Witness for C4 at the concrete supported identifier "azure-openai". -/
theorem registry_case_insensitive_witness :
    "azure-openai" ∈ supportedProviders ∧
    getProviderPackageName "azure-openai" = getProviderPackageName (jsToUpper "azure-openai") :=
  ⟨by decide, (registry_case_insensitive "azure-openai" (by decide)).1⟩

theorem listLe_total : ∀ a b : List Char, (listLe a b || listLe b a) = true := by
  intro a
  induction a with
  | nil => intro b; simp [listLe]
  | cons c a' ih =>
    intro b
    cases b with
    | nil => simp [listLe]
    | cons d b' =>
      rcases lt_trichotomy c d with h | h | h
      · simp [listLe, h]
      · subst h
        simpa [listLe, lt_irrefl] using ih b'
      · simp [listLe, h, lt_asymm h]

theorem listLe_trans :
    ∀ a b c : List Char, listLe a b = true → listLe b c = true → listLe a c = true := by
  intro a
  induction a with
  | nil => intro b c _ _; simp [listLe]
  | cons x a' ih =>
    intro b c hab hbc
    cases b with
    | nil => simp [listLe] at hab
    | cons y b' =>
      cases c with
      | nil => simp [listLe] at hbc
      | cons z c' =>
        rcases lt_trichotomy x y with hxy | hxy | hxy
        · rcases lt_trichotomy y z with hyz | hyz | hyz
          · simp [listLe, lt_trans hxy hyz]
          · subst hyz; simp [listLe, hxy]
          · simp [listLe, hyz, lt_asymm hyz] at hbc
        · subst hxy
          rcases lt_trichotomy x z with hxz | hxz | hxz
          · simp [listLe, hxz]
          · subst hxz
            simp only [listLe, lt_irrefl, if_false] at hab hbc ⊢
            exact ih b' c' hab hbc
          · simp [listLe, hxz, lt_asymm hxz] at hbc
        · simp [listLe, hxy, lt_asymm hxy] at hab

theorem strLe_total : ∀ a b : String, (strLe a b || strLe b a) = true := by
  intro a b; exact listLe_total a.data b.data

theorem strLe_trans :
    ∀ a b c : String, strLe a b = true → strLe b c = true → strLe a c = true := by
  intro a b c; exact listLe_trans a.data b.data c.data

theorem mem_insertLe {x z : String} {l : List String} (h : z ∈ insertLe x l) :
    z = x ∨ z ∈ l := by
  induction l with
  | nil => simpa [insertLe] using h
  | cons y ys ih =>
    simp only [insertLe] at h
    by_cases hxy : strLe x y = true
    · rw [if_pos hxy] at h
      rcases List.mem_cons.mp h with h | h
      · exact Or.inl h
      · exact Or.inr h
    · rw [if_neg hxy] at h
      rcases List.mem_cons.mp h with h | h
      · exact Or.inr (by simp [h])
      · rcases ih h with h | h
        · exact Or.inl h
        · exact Or.inr (List.mem_cons_of_mem _ h)

theorem insertLe_sorted {x : String} {l : List String}
    (h : List.Sorted (fun a b => strLe a b = true) l) :
    List.Sorted (fun a b => strLe a b = true) (insertLe x l) := by
  induction l with
  | nil => simp [insertLe]
  | cons y ys ih =>
    rcases List.sorted_cons.mp h with ⟨hy, hys⟩
    simp only [insertLe]
    by_cases hxy : strLe x y = true
    · rw [if_pos hxy]
      refine List.sorted_cons.mpr ⟨?_, h⟩
      intro b hb
      rcases List.mem_cons.mp hb with hb | hb
      · exact hb ▸ hxy
      · exact strLe_trans x y b hxy (hy b hb)
    · rw [if_neg hxy]
      refine List.sorted_cons.mpr ⟨?_, ih hys⟩
      intro b hb
      rcases mem_insertLe hb with hb | hb
      · rw [hb]
        have := strLe_total x y
        simpa [hxy] using this
      · exact hy b hb

/-- Output of the default string sort is lexicographically sorted. -/
theorem sortStr_sorted (l : List String) :
    List.Sorted (fun a b => strLe a b = true) (sortStr l) := by
  induction l with
  | nil => simp [sortStr]
  | cons x xs ih => exact insertLe_sorted ih

/-- C1: for every provider identifier, credential and transport outcome,
whenever the selected adapter throws — be it for a network failure, a
non-success HTTP status, or a parsing failure on a malformed or
field-missing body — the dispatch boundary of `fetchModelsFromProvider`
catches the error and returns the absence signal `none`; no error value
ever crosses the boundary. -/
theorem fetch_error_containment (p k : String) (o : FetchOutcome)
    (h : adapterThrew (adapterRun p k o) = true) :
    fetchModelsFromProvider p k o = none := by
  unfold fetchModelsFromProvider
  cases hr : adapterRun p k o with
  | error e => rfl
  | ok m => rw [hr] at h; simp [adapterThrew] at h

/-- Witness for C1: a transport failure on the OpenAI adapter is a thrown
error, and the dispatcher returns the absence signal for it. -/
theorem fetch_error_containment_witness :
    adapterThrew (adapterRun "openai" "key" (FetchOutcome.networkError "down")) = true ∧
    fetchModelsFromProvider "openai" "key" (FetchOutcome.networkError "down") = none :=
  ⟨by decide,
   fetch_error_containment "openai" "key" (FetchOutcome.networkError "down") (by decide)⟩

/-- C10: `fetchModelsFromProvider` never returns an empty list — any list
it returns contains at least one model identifier, since an adapter
success with zero models is collapsed to the absence signal at the
dispatch boundary. -/
theorem fetch_never_empty (p k : String) (o : FetchOutcome) (l : List String)
    (h : fetchModelsFromProvider p k o = some l) : 0 < l.length := by
  unfold fetchModelsFromProvider at h
  cases hr : adapterRun p k o with
  | error e => rw [hr] at h; simp at h
  | ok m =>
    rw [hr] at h
    cases m with
    | none => simp at h
    | some models =>
      by_cases hl : 0 < models.length
      · simp only [if_pos hl, Option.some.injEq] at h
        exact h ▸ hl
      · simp [hl] at h

/-- Witness for C10: the Anthropic credential-shape check returns a
four-element list, which is indeed nonempty. -/
theorem fetch_never_empty_witness :
    fetchModelsFromProvider "anthropic" "sk-ant-test" (FetchOutcome.networkError "x") =
      some ["claude-3-5-sonnet-20241022", "claude-3-opus-20240229",
            "claude-3-sonnet-20240229", "claude-3-haiku-20240307"] ∧
    0 < (["claude-3-5-sonnet-20241022", "claude-3-opus-20240229",
          "claude-3-sonnet-20240229", "claude-3-haiku-20240307"] : List String).length :=
  ⟨by decide, fetch_never_empty "anthropic" "sk-ant-test" (FetchOutcome.networkError "x") _ (by decide)⟩

/-- Counterexample to C5 as stated: the hardcoded curated list returned by
the Anthropic credential-shape adapter is not lexicographically sorted —
its "sonnet" entry precedes its "haiku" entry. -/
theorem fetch_sorted_cex :
    fetchModelsFromProvider "anthropic" "sk-ant-test" (FetchOutcome.networkError "n") =
      some ["claude-3-5-sonnet-20241022", "claude-3-opus-20240229",
            "claude-3-sonnet-20240229", "claude-3-haiku-20240307"] ∧
    ¬ List.Sorted (fun a b => strLe a b = true)
        ["claude-3-5-sonnet-20241022", "claude-3-opus-20240229",
         "claude-3-sonnet-20240229", "claude-3-haiku-20240307"] := by
  exact ⟨by decide, by decide⟩

theorem listEndpointAdapter_ok_sorted (ep tf idf : String) (keep : String → Bool)
    (o : FetchOutcome) (l : List String)
    (h : listEndpointAdapter ep tf idf keep o = .ok (some l)) :
    List.Sorted (fun a b => strLe a b = true) l := by
  cases o with
  | networkError m => simp [listEndpointAdapter] at h
  | response ok status body =>
    simp only [listEndpointAdapter] at h
    by_cases hok : ok = false
    · simp [hok] at h
    · rw [if_neg hok] at h
      split at h
      · simp at h
      · simp at h
      · split at h
        · simp at h
        · simp only [Except.ok.injEq, Option.some.injEq] at h
          exact h ▸ sortStr_sorted _
      · simp at h

theorem fetchGoogleModels_ok_sorted (k : String) (o : FetchOutcome) (l : List String)
    (h : fetchGoogleModels k o = .ok (some l)) :
    List.Sorted (fun a b => strLe a b = true) l := by
  cases o with
  | networkError m => simp [fetchGoogleModels] at h
  | response ok status body =>
    simp only [fetchGoogleModels] at h
    by_cases hok : ok = false
    · simp [hok] at h
    · rw [if_neg hok] at h
      split at h
      · simp at h
      · simp at h
      · split at h
        · simp at h
        · simp only [Except.ok.injEq, Option.some.injEq] at h
          exact h ▸ sortStr_sorted _
      · simp at h

theorem adapterRun_ok_sorted (p k : String) (o : FetchOutcome) (l : List String)
    (h : adapterRun p k o = .ok (some l)) :
    List.Sorted (fun a b => strLe a b = true) l ∨
    (jsToLower p = "anthropic" ∧
     l = ["claude-3-5-sonnet-20241022", "claude-3-opus-20240229",
          "claude-3-sonnet-20240229", "claude-3-haiku-20240307"]) := by
  unfold adapterRun at h
  split at h
  · exact Or.inl (listEndpointAdapter_ok_sorted _ _ _ _ _ _ h)
  · exact Or.inl (listEndpointAdapter_ok_sorted _ _ _ _ _ _ h)
  · refine Or.inr ⟨by assumption, ?_⟩
    unfold fetchAnthropicModels at h
    split at h
    · simp at h
    · simp only [Except.ok.injEq, Option.some.injEq] at h
      exact h.symm
  · exact Or.inl (fetchGoogleModels_ok_sorted _ _ _ h)
  · exact Or.inl (listEndpointAdapter_ok_sorted _ _ _ _ _ _ h)
  · exact Or.inl (listEndpointAdapter_ok_sorted _ _ _ _ _ _ h)
  · exact Or.inl (listEndpointAdapter_ok_sorted _ _ _ _ _ _ h)
  · exact Or.inl (listEndpointAdapter_ok_sorted _ _ _ _ _ _ h)
  · exact Or.inl (listEndpointAdapter_ok_sorted _ _ _ _ _ _ h)
  · simp at h

/-- C5 amended: every model list `fetchModelsFromProvider` returns is
lexicographically sorted, except that the Anthropic credential-shape
adapter returns its fixed curated four-model list in an order that is not
lexicographic. -/
theorem fetch_sorted_amended (p k : String) (o : FetchOutcome) (l : List String)
    (h : fetchModelsFromProvider p k o = some l) :
    List.Sorted (fun a b => strLe a b = true) l ∨
    (jsToLower p = "anthropic" ∧
     l = ["claude-3-5-sonnet-20241022", "claude-3-opus-20240229",
          "claude-3-sonnet-20240229", "claude-3-haiku-20240307"]) := by
  unfold fetchModelsFromProvider at h
  cases hr : adapterRun p k o with
  | error e => rw [hr] at h; simp at h
  | ok m =>
    rw [hr] at h
    cases m with
    | none => simp at h
    | some models =>
      by_cases hl : 0 < models.length
      · simp only [if_pos hl, Option.some.injEq] at h
        exact h ▸ adapterRun_ok_sorted p k o models hr
      · simp [hl] at h

/-- Witness for the amended C5: a concrete OpenAI response produces a
sorted two-model list. -/
theorem fetch_sorted_amended_witness :
    fetchModelsFromProvider "openai" "key"
      (FetchOutcome.response true 200
        (Jv.obj [("data", Jv.arr [Jv.obj [("id", Jv.str "gpt-4")],
                                  Jv.obj [("id", Jv.str "gpt-3.5-turbo")]])])) =
      some ["gpt-3.5-turbo", "gpt-4"] ∧
    (List.Sorted (fun a b => strLe a b = true) ["gpt-3.5-turbo", "gpt-4"] ∨
     (jsToLower "openai" = "anthropic" ∧
      ["gpt-3.5-turbo", "gpt-4"] =
        ["claude-3-5-sonnet-20241022", "claude-3-opus-20240229",
         "claude-3-sonnet-20240229", "claude-3-haiku-20240307"])) :=
  ⟨by decide,
   fetch_sorted_amended "openai" "key"
     (FetchOutcome.response true 200
       (Jv.obj [("data", Jv.arr [Jv.obj [("id", Jv.str "gpt-4")],
                                 Jv.obj [("id", Jv.str "gpt-3.5-turbo")]])]))
     ["gpt-3.5-turbo", "gpt-4"] (by decide)⟩

theorem getSubstitution_dollarFree (matched pre post : List Char) {repl : List Char}
    (h : dollarFree repl) : getSubstitution matched pre post repl = repl := by
  induction repl with
  | nil => rfl
  | cons c rest ih =>
    cases rest with
    | nil => rfl
    | cons d rest' =>
      have hc : c ≠ '$' := h c (by simp)
      simp only [getSubstitution, if_neg hc]
      congr 1
      exact ih (fun x hx => h x (List.mem_cons_of_mem _ hx))

theorem isPrefixOf_false_head {t : List Char} {c : Char} (rest : List Char)
    (hc : c ≠ lbrace) : (lbrace :: t).isPrefixOf (c :: rest) = false := by
  have hne : ¬ (lbrace = c) := fun e => hc e.symm
  simp [List.isPrefixOf, hne]

theorem jsReplaceGo_nil (pat repl pre : List Char) : jsReplaceGo pat repl pre [] = [] := by
  simp [jsReplaceGo]

theorem jsReplaceGo_match {pat : List Char} (repl pre : List Char) {s : List Char}
    (hne : pat ≠ []) (hp : pat.isPrefixOf s = true) :
    jsReplaceGo pat repl pre s =
      getSubstitution pat pre (s.drop pat.length) repl ++
        jsReplaceGo pat repl (pre ++ pat) (s.drop pat.length) := by
  cases s with
  | nil =>
    cases pat with
    | nil => exact absurd rfl hne
    | cons a t => simp [List.isPrefixOf] at hp
  | cons c rest =>
    rw [jsReplaceGo]
    rw [dif_pos ⟨hne, hp⟩]

theorem jsReplaceGo_skip_char {n : String} (repl pre : List Char) {c : Char}
    (rest : List Char) (hc : c ≠ lbrace) :
    jsReplaceGo (token n) repl pre (c :: rest) =
      c :: jsReplaceGo (token n) repl (pre ++ [c]) rest := by
  rw [jsReplaceGo]
  rw [dif_neg]
  intro hcontra
  have h2 := hcontra.2
  have h3 : (token n).isPrefixOf (c :: rest) = false := by
    show (lbrace :: (lbrace :: n.data ++ [rbrace, rbrace])).isPrefixOf (c :: rest) = false
    exact isPrefixOf_false_head rest hc
  rw [h3] at h2
  exact Bool.false_ne_true h2

theorem jsReplaceGo_skip_lits {n : String} (repl : List Char) {s : List Char}
    (hs : noLBrace s) :
    ∀ pre rest, jsReplaceGo (token n) repl pre (s ++ rest) =
      s ++ jsReplaceGo (token n) repl (pre ++ s) rest := by
  induction s with
  | nil => intro pre rest; simp
  | cons c s' ih =>
    intro pre rest
    have hc : c ≠ lbrace := hs c (by simp)
    rw [List.cons_append, jsReplaceGo_skip_char repl pre _ hc]
    rw [ih (fun x hx => hs x (List.mem_cons_of_mem _ hx)) (pre ++ [c]) rest]
    simp

theorem jsReplaceGo_eat_token {n : String} (repl pre rest : List Char) :
    jsReplaceGo (token n) repl pre (token n ++ rest) =
      getSubstitution (token n) pre rest repl ++
        jsReplaceGo (token n) repl (pre ++ token n) rest := by
  have h1 : token n ≠ [] := by simp [token]
  have h2 : (token n).isPrefixOf (token n ++ rest) = true :=
    List.isPrefixOf_iff_prefix.mpr (List.prefix_append _ _)
  rw [jsReplaceGo_match repl pre h1 h2, List.drop_left]

theorem braceFree_ne_isPrefixOf :
    ∀ (a b : List Char), braceFree a → braceFree b → a ≠ b →
    ∀ u w, (a ++ rbrace :: u).isPrefixOf (b ++ rbrace :: w) = false := by
  intro a
  induction a with
  | nil =>
    intro b _ hb hab u w
    cases b with
    | nil => exact absurd rfl hab
    | cons d b' =>
      have hd : ¬ (rbrace = d) := fun e => (hb d (by simp)).2 e.symm
      simp [List.isPrefixOf, hd]
  | cons c a' ih =>
    intro b ha hb hab u w
    cases b with
    | nil =>
      have hc : ¬ (c = rbrace) := (ha c (by simp)).2
      simp [List.isPrefixOf, hc]
    | cons d b' =>
      by_cases hcd : c = d
      · subst hcd
        have hne : a' ≠ b' := fun e => hab (by rw [e])
        simp only [List.cons_append, List.isPrefixOf, beq_self_eq_true, Bool.true_and]
        exact ih b' (fun x hx => ha x (List.mem_cons_of_mem _ hx))
          (fun x hx => hb x (List.mem_cons_of_mem _ hx)) hne u w
      · simp [List.isPrefixOf, hcd]

theorem token_skip_isPrefixOf {n m : String} (hn : braceFree n.data) (hm : braceFree m.data)
    (hnm : n ≠ m) (rest : List Char) :
    (token n).isPrefixOf (token m ++ rest) = false := by
  have hd : n.data ≠ m.data := by
    intro e
    apply hnm
    cases n
    cases m
    exact congrArg String.mk (by simpa using e)
  show (lbrace :: lbrace :: n.data ++ [rbrace, rbrace]).isPrefixOf
    ((lbrace :: lbrace :: m.data ++ [rbrace, rbrace]) ++ rest) = false
  simp only [List.cons_append, List.isPrefixOf, beq_self_eq_true, Bool.true_and]
  have h := braceFree_ne_isPrefixOf n.data m.data hn hm hd [rbrace] ([rbrace] ++ rest)
  simpa using h

theorem jsReplaceGo_skip_token {n m : String} (repl pre rest : List Char)
    (hn : braceFree n.data) (hm : goodName m) (hnm : n ≠ m) :
    jsReplaceGo (token n) repl pre (token m ++ rest) =
      token m ++ jsReplaceGo (token n) repl (pre ++ token m) rest := by
  cases hmd : m.data with
  | nil => exact absurd hmd hm.2
  | cons e md' =>
    have he : e ≠ lbrace := by
      have := hm.1 e (by rw [hmd]; simp)
      exact this.1
    have hstep0 : token m ++ rest =
        lbrace :: (lbrace :: (m.data ++ ([rbrace, rbrace] ++ rest))) := by
      simp [token]
    rw [hstep0]
    rw [jsReplaceGo]
    rw [dif_neg]
    · rw [jsReplaceGo]
      rw [dif_neg]
      · have hnol : noLBrace (m.data ++ [rbrace, rbrace]) := by
          intro x hx
          rcases List.mem_append.mp hx with hx | hx
          · exact (hm.1 x hx).1
          · have hxr : x = rbrace := by simpa using hx
            rw [hxr]
            decide
        have := jsReplaceGo_skip_lits (n := n) repl hnol
          (pre ++ [lbrace] ++ [lbrace]) rest
        rw [List.append_assoc m.data ([rbrace, rbrace]) rest] at this
        rw [this]
        have hpre : pre ++ [lbrace] ++ [lbrace] ++ (m.data ++ [rbrace, rbrace]) =
            pre ++ token m := by
          simp [token]
        rw [hpre]
        simp [token]
      · intro hcontra
        have h2 := hcontra.2
        have h3 : (token n).isPrefixOf (lbrace :: (m.data ++ ([rbrace, rbrace] ++ rest))) = false := by
          show (lbrace :: (lbrace :: n.data ++ [rbrace, rbrace])).isPrefixOf
            (lbrace :: (m.data ++ ([rbrace, rbrace] ++ rest))) = false
          rw [hmd]
          have hne : ¬ (lbrace = e) := fun h => he h.symm
          simp [List.isPrefixOf, hne]
        rw [h3] at h2
        exact Bool.false_ne_true h2
    · intro hcontra
      have h2 := hcontra.2
      have h3 := token_skip_isPrefixOf hn hm.1 hnm rest
      have hshape : token m ++ rest =
          lbrace :: (lbrace :: (m.data ++ ([rbrace, rbrace] ++ rest))) := hstep0
      rw [hshape] at h3
      rw [h3] at h2
      exact Bool.false_ne_true h2

theorem jsReplaceGo_flatSegs {n v : String} (hn : goodName n) (hv : dollarFree v.data)
    {segs : List Seg} (hsegs : ∀ g ∈ segs, segOK g) :
    ∀ pre, jsReplaceGo (token n) v.data pre (flatSegs segs) =
      flatSegs (segs.map (stageSeg n v)) := by
  induction segs with
  | nil => intro pre; simp [flatSegs, jsReplaceGo_nil]
  | cons g gs ih =>
    have hgs : ∀ g ∈ gs, segOK g := fun x hx => hsegs x (List.mem_cons_of_mem _ hx)
    intro pre
    cases g with
    | lit s =>
      have hs : noLBrace s := hsegs (Seg.lit s) (by simp)
      show jsReplaceGo (token n) v.data pre (s ++ flatSegs gs) = _
      rw [jsReplaceGo_skip_lits v.data hs pre _]
      rw [ih hgs (pre ++ s)]
      simp [flatSegs, stageSeg]
    | tok m =>
      have hm : goodName m := hsegs (Seg.tok m) (by simp)
      by_cases hmn : m = n
      · subst hmn
        show jsReplaceGo (token m) v.data pre (token m ++ flatSegs gs) = _
        rw [jsReplaceGo_eat_token]
        rw [getSubstitution_dollarFree _ _ _ hv]
        rw [ih hgs (pre ++ token m)]
        simp [flatSegs, stageSeg]
      · show jsReplaceGo (token n) v.data pre (token m ++ flatSegs gs) = _
        rw [jsReplaceGo_skip_token v.data pre _ hn.1 hm (fun e => hmn e.symm)]
        rw [ih hgs (pre ++ token m)]
        simp [flatSegs, stageSeg, hmn]

theorem stageSeg_segOK {n v : String} (hv : noLBrace v.data) {g : Seg} (hg : segOK g) :
    segOK (stageSeg n v g) := by
  cases g with
  | lit s => exact hg
  | tok m =>
    by_cases hmn : m = n
    · simp only [stageSeg, if_pos hmn]
      exact hv
    · simp only [stageSeg, if_neg hmn]
      exact hg

theorem applyReplacements_flatSegs {entries : List (String × String)}
    (he : ∀ kv ∈ entries, goodName kv.1 ∧ noLBrace kv.2.data ∧ dollarFree kv.2.data) :
    ∀ {segs : List Seg}, (∀ g ∈ segs, segOK g) →
      applyReplacements entries (flatSegs segs) = flatSegs (segs.map (applyStages entries)) := by
  induction entries with
  | nil =>
    intro segs _
    show flatSegs segs = _
    have : segs.map (applyStages []) = segs := List.map_id _
    rw [this]
  | cons kv rest ih =>
    intro segs hsegs
    have hkv := he kv (by simp)
    have hrest : ∀ p ∈ rest, goodName p.1 ∧ noLBrace p.2.data ∧ dollarFree p.2.data :=
      fun p hp => he p (List.mem_cons_of_mem _ hp)
    show applyReplacements rest (jsReplace (token kv.1) kv.2.data (flatSegs segs)) = _
    rw [jsReplace, jsReplaceGo_flatSegs hkv.1 hkv.2.2 hsegs []]
    rw [ih hrest (fun g hg => by
      rcases List.mem_map.mp hg with ⟨g', hg', rfl⟩
      exact stageSeg_segOK hkv.2.1 (hsegs g' hg'))]
    rw [List.map_map]
    rfl

theorem find?_congr {α : Type} {p q : α → Bool} :
    ∀ {l : List α}, (∀ x ∈ l, p x = q x) → l.find? p = l.find? q := by
  intro l
  induction l with
  | nil => intro _; rfl
  | cons a l' ih =>
    intro h
    have ha := h a (by simp)
    by_cases hp : p a = true
    · rw [List.find?_cons_of_pos _ hp, List.find?_cons_of_pos _ (ha ▸ hp)]
    · have hp' : ¬ (q a = true) := fun e => hp (ha ▸ e)
      rw [List.find?_cons_of_neg _ hp, List.find?_cons_of_neg _ hp']
      exact ih (fun x hx => h x (List.mem_cons_of_mem _ hx))

theorem renderSimultaneous_nil (entries : List (String × String)) :
    renderSimultaneous entries [] = [] := by
  rw [renderSimultaneous]

theorem renderSimultaneous_cons (entries : List (String × String)) (c : Char)
    (rest : List Char) :
    renderSimultaneous entries (c :: rest) =
      match entries.find? (fun kv => (token kv.1).isPrefixOf (c :: rest)) with
      | some kv => kv.2.data ++ renderSimultaneous entries ((c :: rest).drop (token kv.1).length)
      | none => c :: renderSimultaneous entries rest := by
  rw [renderSimultaneous]

theorem renderSimultaneous_no_match {entries : List (String × String)} {c : Char}
    {rest : List Char}
    (hnone : ∀ p ∈ entries, (token p.1).isPrefixOf (c :: rest) = false) :
    renderSimultaneous entries (c :: rest) = c :: renderSimultaneous entries rest := by
  rw [renderSimultaneous_cons]
  rw [List.find?_eq_none.mpr (fun x hx => by simp [hnone x hx])]

theorem renderSimultaneous_skip_char {entries : List (String × String)} {c : Char}
    (hc : c ≠ lbrace) (rest : List Char) :
    renderSimultaneous entries (c :: rest) = c :: renderSimultaneous entries rest := by
  apply renderSimultaneous_no_match
  intro p _
  show (lbrace :: (lbrace :: p.1.data ++ [rbrace, rbrace])).isPrefixOf (c :: rest) = false
  exact isPrefixOf_false_head rest hc

theorem renderSimultaneous_skip_lits {entries : List (String × String)} {s : List Char}
    (hs : noLBrace s) (rest : List Char) :
    renderSimultaneous entries (s ++ rest) = s ++ renderSimultaneous entries rest := by
  induction s with
  | nil => simp
  | cons c s' ih =>
    have hc : c ≠ lbrace := hs c (by simp)
    rw [List.cons_append, renderSimultaneous_skip_char hc]
    rw [ih (fun x hx => hs x (List.mem_cons_of_mem _ hx))]
    rfl

theorem isPrefixOf_false_second {t : List Char} {e : Char} (he : e ≠ lbrace)
    (s : List Char) :
    (lbrace :: lbrace :: t).isPrefixOf (lbrace :: e :: s) = false := by
  have hne : ¬ (lbrace = e) := fun h => he h.symm
  simp [List.isPrefixOf, hne]

theorem renderSimultaneous_tok_found {entries : List (String × String)} {m : String}
    {kv : String × String} (hgood : ∀ p ∈ entries, goodName p.1) (hm : goodName m)
    (tail : List Char)
    (hfind : entries.find? (fun p => p.1 == m) = some kv) :
    renderSimultaneous entries (token m ++ tail) =
      kv.2.data ++ renderSimultaneous entries tail := by
  have hpred : ∀ p ∈ entries,
      ((token p.1).isPrefixOf (token m ++ tail)) = (p.1 == m) := by
    intro p hp
    by_cases hpm : p.1 = m
    · rw [hpm]
      have h2 : (token m).isPrefixOf (token m ++ tail) = true :=
        List.isPrefixOf_iff_prefix.mpr (List.prefix_append _ _)
      rw [h2]
      exact (beq_self_eq_true m).symm
    · rw [token_skip_isPrefixOf (hgood p hp).1 hm.1 hpm tail]
      exact (beq_eq_false_iff_ne.mpr hpm).symm
  have hfind2 : entries.find? (fun p => (token p.1).isPrefixOf (token m ++ tail)) = some kv := by
    rw [find?_congr hpred]
    exact hfind
  have hcons : token m ++ tail = lbrace :: ((lbrace :: m.data ++ [rbrace, rbrace]) ++ tail) := by
    simp [token]
  rw [hcons, renderSimultaneous_cons, ← hcons, hfind2]
  have hkv1 : kv.1 = m := by
    have := List.find?_some hfind
    simpa using this
  show kv.2.data ++ renderSimultaneous entries ((token m ++ tail).drop (token kv.1).length) = _
  rw [hkv1, List.drop_left]

theorem renderSimultaneous_tok_none {entries : List (String × String)} {m : String}
    (hgood : ∀ p ∈ entries, goodName p.1) (hm : goodName m) (tail : List Char)
    (hfind : entries.find? (fun p => p.1 == m) = none) :
    renderSimultaneous entries (token m ++ tail) =
      token m ++ renderSimultaneous entries tail := by
  rw [List.find?_eq_none] at hfind
  cases hmd : m.data with
  | nil => exact absurd hmd hm.2
  | cons e md' =>
    have he : e ≠ lbrace := by
      have := hm.1 e (by rw [hmd]; simp)
      exact this.1
    have hcons : token m ++ tail =
        lbrace :: (lbrace :: (m.data ++ ([rbrace, rbrace] ++ tail))) := by
      simp [token]
    rw [hcons]
    rw [renderSimultaneous_no_match ?first]
    case first =>
      intro p hp
      rw [← hcons]
      by_cases hpm : p.1 = m
      · have hcontra := hfind p hp
        rw [hpm] at hcontra
        exact absurd (beq_self_eq_true m) hcontra
      · exact token_skip_isPrefixOf (hgood p hp).1 hm.1 hpm tail
    rw [renderSimultaneous_no_match ?second]
    case second =>
      intro p hp
      show (lbrace :: (lbrace :: (p.1.data ++ [rbrace, rbrace]))).isPrefixOf
        (lbrace :: (m.data ++ ([rbrace, rbrace] ++ tail))) = false
      rw [hmd]
      show (lbrace :: (lbrace :: (p.1.data ++ [rbrace, rbrace]))).isPrefixOf
        (lbrace :: (e :: (md' ++ ([rbrace, rbrace] ++ tail)))) = false
      exact isPrefixOf_false_second he _
    have hnol : noLBrace (m.data ++ [rbrace, rbrace]) := by
      intro x hx
      rcases List.mem_append.mp hx with hx | hx
      · exact (hm.1 x hx).1
      · have hxr : x = rbrace := by simpa using hx
        rw [hxr]
        decide
    have hskip := @renderSimultaneous_skip_lits entries (m.data ++ [rbrace, rbrace]) hnol tail
    rw [show m.data ++ ([rbrace, rbrace] ++ tail) =
      (m.data ++ [rbrace, rbrace]) ++ tail from by simp]
    rw [hskip]
    simp [token]

theorem renderSimultaneous_flatSegs {entries : List (String × String)}
    (hgood : ∀ p ∈ entries, goodName p.1) :
    ∀ {segs : List Seg}, (∀ g ∈ segs, segOK g) →
      renderSimultaneous entries (flatSegs segs) = flatSegs (segs.map (simulSeg entries)) := by
  intro segs
  induction segs with
  | nil => intro _; simp [flatSegs, renderSimultaneous_nil]
  | cons g gs ih =>
    intro hsegs
    have hgs : ∀ x ∈ gs, segOK x := fun x hx => hsegs x (List.mem_cons_of_mem _ hx)
    cases g with
    | lit s =>
      have hs : noLBrace s := hsegs (Seg.lit s) (by simp)
      show renderSimultaneous entries (s ++ flatSegs gs) = _
      rw [renderSimultaneous_skip_lits hs, ih hgs]
      simp [flatSegs, simulSeg]
    | tok m =>
      have hm : goodName m := hsegs (Seg.tok m) (by simp)
      show renderSimultaneous entries (token m ++ flatSegs gs) = _
      cases hfind : entries.find? (fun p => p.1 == m) with
      | some kv =>
        rw [renderSimultaneous_tok_found hgood hm _ hfind, ih hgs]
        simp only [List.map_cons, simulSeg, hfind, flatSegs]
      | none =>
        rw [renderSimultaneous_tok_none hgood hm _ hfind, ih hgs]
        simp only [List.map_cons, simulSeg, hfind, flatSegs]

theorem applyStages_lit (entries : List (String × String)) (s : List Char) :
    applyStages entries (Seg.lit s) = Seg.lit s := by
  induction entries with
  | nil => rfl
  | cons kv rest ih =>
    show applyStages rest (stageSeg kv.1 kv.2 (Seg.lit s)) = Seg.lit s
    exact ih

theorem applyStages_eq_simulSeg (entries : List (String × String)) (g : Seg) :
    applyStages entries g = simulSeg entries g := by
  cases g with
  | lit s => rw [applyStages_lit]; rfl
  | tok m =>
    induction entries with
    | nil => rfl
    | cons kv rest ih =>
      show applyStages rest (stageSeg kv.1 kv.2 (Seg.tok m)) = _
      by_cases hm : m = kv.1
      · simp only [stageSeg, if_pos hm]
        rw [applyStages_lit]
        show Seg.lit kv.2.data = simulSeg (kv :: rest) (Seg.tok m)
        have hfind : List.find? (fun p => p.1 == m) (kv :: rest) = some kv :=
          List.find?_cons_of_pos _ (beq_iff_eq.mpr hm.symm)
        simp only [simulSeg, hfind]
      · simp only [stageSeg, if_neg hm]
        rw [ih]
        have hneg : ¬ ((kv.1 == m) = true) := by
          intro e
          exact hm (beq_iff_eq.mp e).symm
        show simulSeg rest (Seg.tok m) = simulSeg (kv :: rest) (Seg.tok m)
        have hfind : List.find? (fun p => p.1 == m) (kv :: rest) =
            List.find? (fun p => p.1 == m) rest :=
          List.find?_cons_of_neg _ hneg
        simp only [simulSeg, hfind]

theorem find?_key_perm {l₁ l₂ : List (String × String)}
    (hnd : (l₁.map Prod.fst).Nodup) (hp : l₁.Perm l₂) (m : String) :
    l₁.find? (fun kv => kv.1 == m) = l₂.find? (fun kv => kv.1 == m) := by
  cases h₁ : l₁.find? (fun kv => kv.1 == m) with
  | none =>
    rw [List.find?_eq_none] at h₁
    symm
    rw [List.find?_eq_none]
    exact fun x hx => h₁ x (hp.symm.subset hx)
  | some kv =>
    have hkv_mem : kv ∈ l₁ := List.mem_of_find?_eq_some h₁
    have hkv_p0 := List.find?_some h₁
    have hkv_p : (kv.1 == m) = true := hkv_p0
    have hmem₂ : kv ∈ l₂ := hp.subset hkv_mem
    have hsome : (l₂.find? (fun kv => kv.1 == m)).isSome := by
      rw [List.find?_isSome]
      exact ⟨kv, hmem₂, hkv_p⟩
    obtain ⟨kv', hkv'⟩ := Option.isSome_iff_exists.mp hsome
    have hkv'_mem : kv' ∈ l₁ := hp.symm.subset (List.mem_of_find?_eq_some hkv')
    have hkv'_p0 := List.find?_some hkv'
    have hkv'_p : (kv'.1 == m) = true := hkv'_p0
    have heq : kv' = kv := by
      refine List.inj_on_of_nodup_map hnd hkv'_mem hkv_mem ?_
      rw [beq_iff_eq] at hkv_p hkv'_p
      rw [hkv_p, hkv'_p]
    rw [hkv', heq]

theorem varNames_goodName : ∀ n ∈ varNames, goodName n := by decide

theorem entries_keys (v : TemplateVariables) : v.entries.map Prod.fst = varNames := rfl

theorem entries_goodName (v : TemplateVariables) : ∀ kv ∈ v.entries, goodName kv.1 := by
  intro kv hkv
  apply varNames_goodName
  rw [← entries_keys v]
  exact List.mem_map_of_mem Prod.fst hkv

theorem entries_keys_nodup (v : TemplateVariables) : (v.entries.map Prod.fst).Nodup := by
  rw [entries_keys]
  decide

/-- C2 amended: on every content that is a concatenation of literal
stretches containing no left brace and placeholder-token occurrences of
well-formed names, and for every variable set whose seven values contain
no left brace and no dollar character, `processTemplate` returns the
content with every occurrence of each supplied variable's placeholder
token replaced by that variable's exact string value and all other text
— including tokens of names outside the supplied set — left unchanged
(the simultaneous reading of the specification).  Unrestricted, the claim
fails: a value may itself contain or complete another variable's
placeholder token, which a later pass of the sequential loop rewrites,
and a dollar escape in a value substitutes text other than the value. -/
theorem processTemplate_spec_amended (vars : TemplateVariables) (segs : List Seg)
    (hsegs : ∀ g ∈ segs, segOK g) (hv : cleanValues vars) :
    processTemplate ⟨flatSegs segs⟩ vars = renderSimultaneousStr ⟨flatSegs segs⟩ vars := by
  unfold processTemplate renderSimultaneousStr
  have he : ∀ kv ∈ vars.entries,
      goodName kv.1 ∧ noLBrace kv.2.data ∧ dollarFree kv.2.data := by
    intro kv hkv
    exact ⟨entries_goodName vars kv hkv, (hv kv hkv).1, (hv kv hkv).2⟩
  have h1 : applyReplacements vars.entries (String.mk (flatSegs segs)).data =
      flatSegs (segs.map (applyStages vars.entries)) :=
    applyReplacements_flatSegs he hsegs
  have h2 : renderSimultaneous vars.entries (String.mk (flatSegs segs)).data =
      flatSegs (segs.map (simulSeg vars.entries)) :=
    renderSimultaneous_flatSegs (entries_goodName vars) hsegs
  have h3 : segs.map (applyStages vars.entries) = segs.map (simulSeg vars.entries) :=
    List.map_congr_left (fun g _ => applyStages_eq_simulSeg vars.entries g)
  rw [h1, h2, h3]

/-- Counterexample to C2 as stated: with content consisting of the single
token of `PROVIDER` and the `PROVIDER` value being the text of the
`MODEL` token, the sequential loop rewrites the freshly inserted value in
its later `MODEL` pass and returns "x", while the claimed reading — every
token of the original content replaced by the exact value, everything
else untouched — returns the `MODEL` token text. -/
theorem processTemplate_spec_cex :
    processTemplate ⟨token "PROVIDER"⟩ cascadeVars = "x" ∧
    renderSimultaneousStr ⟨token "PROVIDER"⟩ cascadeVars = ⟨token "MODEL"⟩ ∧
    ("x" : String) ≠ ⟨token "MODEL"⟩ := by
  refine ⟨?_, ?_, by decide⟩
  · simp only [processTemplate, applyReplacements, TemplateVariables.entries, cascadeVars,
      List.foldl, jsReplace]
    simp +decide [jsReplaceGo, getSubstitution, token, lbrace, rbrace, backquote]
  · unfold renderSimultaneousStr
    have hfind : cascadeVars.entries.find? (fun p => p.1 == "PROVIDER") =
        some ("PROVIDER", ⟨token "MODEL"⟩) := by decide
    have hm : goodName "PROVIDER" := by decide
    have h := renderSimultaneous_tok_found (entries_goodName cascadeVars) hm [] hfind
    rw [show (String.mk (token "PROVIDER")).data = token "PROVIDER" ++ [] from by simp]
    rw [h, renderSimultaneous_nil]
    simp

/-- Witness for the amended C2 at a concrete decomposable content and
clean variable set. -/
theorem processTemplate_spec_amended_witness :
    (∀ g ∈ witnessSegs, segOK g) ∧ cleanValues witnessVars ∧
    processTemplate ⟨flatSegs witnessSegs⟩ witnessVars =
      renderSimultaneousStr ⟨flatSegs witnessSegs⟩ witnessVars :=
  ⟨by decide, by decide,
   processTemplate_spec_amended witnessVars witnessSegs (by decide) (by decide)⟩

/-- C6 amended: on decomposable content and clean values, the sequential
replacement loop yields the same output under every permutation of the
variable processing order.  Unrestricted, the claim fails: when a value
contains another variable's token, the relative order of the two
replacement passes changes the output. -/
theorem processTemplate_order_amended (vars : TemplateVariables)
    (entries : List (String × String)) (segs : List Seg)
    (hperm : entries.Perm vars.entries)
    (hsegs : ∀ g ∈ segs, segOK g) (hv : cleanValues vars) :
    processTemplateWithOrder entries ⟨flatSegs segs⟩ =
      processTemplate ⟨flatSegs segs⟩ vars := by
  unfold processTemplateWithOrder processTemplate
  have he : ∀ kv ∈ vars.entries,
      goodName kv.1 ∧ noLBrace kv.2.data ∧ dollarFree kv.2.data := by
    intro kv hkv
    exact ⟨entries_goodName vars kv hkv, (hv kv hkv).1, (hv kv hkv).2⟩
  have he' : ∀ kv ∈ entries,
      goodName kv.1 ∧ noLBrace kv.2.data ∧ dollarFree kv.2.data :=
    fun kv hkv => he kv (hperm.subset hkv)
  have h1 : applyReplacements entries (String.mk (flatSegs segs)).data =
      flatSegs (segs.map (applyStages entries)) :=
    applyReplacements_flatSegs he' hsegs
  have h2 : applyReplacements vars.entries (String.mk (flatSegs segs)).data =
      flatSegs (segs.map (applyStages vars.entries)) :=
    applyReplacements_flatSegs he hsegs
  have h3 : segs.map (applyStages entries) = segs.map (applyStages vars.entries) := by
    apply List.map_congr_left
    intro g _
    rw [applyStages_eq_simulSeg, applyStages_eq_simulSeg]
    cases g with
    | lit s => rfl
    | tok m =>
      simp only [simulSeg]
      rw [find?_key_perm (entries_keys_nodup vars) hperm.symm m]
  rw [h1, h2, h3]

/-- Counterexample to C6 as stated: processing the variables in reverse
declaration order (`MODEL` before `PROVIDER`) on the cascade input leaves
the `MODEL` token text in the output, while the declaration order
produces "x". -/
theorem processTemplate_order_cex :
    (cascadeVars.entries.reverse).Perm cascadeVars.entries ∧
    processTemplateWithOrder cascadeVars.entries.reverse ⟨token "PROVIDER"⟩ =
      ⟨token "MODEL"⟩ ∧
    processTemplate ⟨token "PROVIDER"⟩ cascadeVars = "x" ∧
    (String.mk (token "MODEL") : String) ≠ "x" := by
  refine ⟨by decide, ?_, ?_, by decide⟩
  · simp only [processTemplateWithOrder, applyReplacements, TemplateVariables.entries,
      cascadeVars, List.reverse, List.reverseAux, List.foldl, jsReplace]
    simp +decide [jsReplaceGo, getSubstitution, token, lbrace, rbrace, backquote]
  · simp only [processTemplate, applyReplacements, TemplateVariables.entries, cascadeVars,
      List.foldl, jsReplace]
    simp +decide [jsReplaceGo, getSubstitution, token, lbrace, rbrace, backquote]

/-- Witness for the amended C6: the reversed entry order is a permutation
of the declaration order and yields the same output on the witness
content. -/
theorem processTemplate_order_amended_witness :
    (witnessVars.entries.reverse).Perm witnessVars.entries ∧
    processTemplateWithOrder witnessVars.entries.reverse ⟨flatSegs witnessSegs⟩ =
      processTemplate ⟨flatSegs witnessSegs⟩ witnessVars :=
  ⟨by decide,
   processTemplate_order_amended witnessVars _ witnessSegs (by decide) (by decide) (by decide)⟩

theorem runManifest_ok {tfs : String → Option String} {td dp : String}
    {vars : TemplateVariables} :
    ∀ {M : List (String × String)}, (∀ p ∈ M, (tfs p.1).isSome) →
      runManifest tfs td dp vars M = ⟨M.map (renderEntry tfs dp vars), none⟩ := by
  intro M
  induction M with
  | nil => intro _; rfl
  | cons p rest ih =>
    intro h
    obtain ⟨c, hc⟩ := Option.isSome_iff_exists.mp (h p (by simp))
    show runManifest tfs td dp vars ((p.1, p.2) :: rest) = _
    rw [runManifest]
    rw [hc]
    rw [ih (fun q hq => h q (List.mem_cons_of_mem _ hq))]
    simp [renderEntry, hc]

theorem runManifest_missing {tfs : String → Option String} {td dp : String}
    {vars : TemplateVariables} {t d : String} {M₂ : List (String × String)}
    (ht : tfs t = none) :
    ∀ {M₁ : List (String × String)}, (∀ p ∈ M₁, (tfs p.1).isSome) →
      runManifest tfs td dp vars (M₁ ++ (t, d) :: M₂) =
        ⟨M₁.map (renderEntry tfs dp vars),
         some ("Template file not found: " ++ pathJoin td t)⟩ := by
  intro M₁
  induction M₁ with
  | nil =>
    intro _
    show runManifest tfs td dp vars ((t, d) :: M₂) = _
    rw [runManifest, ht]
    rfl
  | cons p rest ih =>
    intro h
    obtain ⟨c, hc⟩ := Option.isSome_iff_exists.mp (h p (by simp))
    show runManifest tfs td dp vars ((p.1, p.2) :: (rest ++ (t, d) :: M₂)) = _
    rw [runManifest]
    rw [hc]
    rw [ih (fun q hq => h q (List.mem_cons_of_mem _ hq))]
    simp [renderEntry, hc]

theorem finishRun_none {dp : String} {o : ProjectOptions} {vars : TemplateVariables}
    {r : GenResult} (hkey : o.apiKey = none) : finishRun dp o vars r = r := by
  obtain ⟨w, e⟩ := r
  cases e <;> simp [finishRun, hkey]

theorem finishRun_emptyKey {dp : String} {o : ProjectOptions} {vars : TemplateVariables}
    {r : GenResult} (hkey : o.apiKey = some "") : finishRun dp o vars r = r := by
  obtain ⟨w, e⟩ := r
  cases e <;> simp [finishRun, hkey]

theorem finishRun_apiKey {dp : String} {o : ProjectOptions} {vars : TemplateVariables}
    {w : List (String × String)} {k : String} (hkey : o.apiKey = some k) (hk : ¬ k = "") :
    finishRun dp o vars ⟨w, none⟩ =
      ⟨w ++ [(pathJoin dp ".env", vars.ENV_VAR_NAME ++ "=" ++ k ++ "\n")], none⟩ := by
  simp [finishRun, hkey, hk]

theorem fst_renderEntry (tfs : String → Option String) (dp : String)
    (vars : TemplateVariables) :
    Prod.fst ∘ renderEntry tfs dp vars = fun p => pathJoin dp p.2 := by
  funext p
  rfl

theorem pathJoin_right_inj {a b c : String} (h : pathJoin a b = pathJoin a c) : b = c := by
  unfold pathJoin at h
  have hdata : (a ++ "/").data ++ b.data = (a ++ "/").data ++ c.data := by
    have := congrArg String.data h
    simpa using this
  have := List.append_cancel_left hdata
  cases b
  cases c
  exact congrArg String.mk (by simpa using this)

theorem projectFiles_dest_ne_env (b : Bool) : ∀ p ∈ projectFiles b, p.2 ≠ ".env" := by
  cases b <;> decide

/-- C7: with the same options otherwise and no credential, a run with the
examples flag set writes exactly the thirteen core and example manifest
files, and a run with it cleared writes exactly the ten core files: the
ten shared writes are identical in path and byte content (they are the
first ten writes of the example run), and the three example files are the
only difference. -/
theorem generateProject_examples_toggle (tfs : String → Option String)
    (td dp pn pv md : String) (si : Bool)
    (h : ∀ p ∈ coreManifest ++ exampleManifest, (tfs p.1).isSome) :
    (generateProject tfs td dp ⟨pn, pv, md, none, true, si⟩).err = none ∧
    (generateProject tfs td dp ⟨pn, pv, md, none, false, si⟩).err = none ∧
    (generateProject tfs td dp ⟨pn, pv, md, none, true, si⟩).writes.length = 13 ∧
    (generateProject tfs td dp ⟨pn, pv, md, none, false, si⟩).writes.length = 10 ∧
    (generateProject tfs td dp ⟨pn, pv, md, none, false, si⟩).writes =
      (generateProject tfs td dp ⟨pn, pv, md, none, true, si⟩).writes.take 10 ∧
    (generateProject tfs td dp ⟨pn, pv, md, none, true, si⟩).writes.map Prod.fst =
      (coreManifest ++ exampleManifest).map (fun p => pathJoin dp p.2) ∧
    (generateProject tfs td dp ⟨pn, pv, md, none, false, si⟩).writes.map Prod.fst =
      coreManifest.map (fun p => pathJoin dp p.2) := by
  have hcore : ∀ p ∈ coreManifest, (tfs p.1).isSome :=
    fun p hp => h p (List.mem_append_left _ hp)
  have hvars : getTemplateVariables ⟨pn, pv, md, none, true, si⟩ =
      getTemplateVariables ⟨pn, pv, md, none, false, si⟩ := rfl
  have hgenT : generateProject tfs td dp ⟨pn, pv, md, none, true, si⟩ =
      ⟨(coreManifest ++ exampleManifest).map
        (renderEntry tfs dp (getTemplateVariables ⟨pn, pv, md, none, true, si⟩)), none⟩ := by
    show finishRun dp _ _ (runManifest tfs td dp
      (getTemplateVariables ⟨pn, pv, md, none, true, si⟩) (projectFiles true)) = _
    rw [show projectFiles true = coreManifest ++ exampleManifest from rfl]
    rw [runManifest_ok h]
    rfl
  have hgenF : generateProject tfs td dp ⟨pn, pv, md, none, false, si⟩ =
      ⟨coreManifest.map
        (renderEntry tfs dp (getTemplateVariables ⟨pn, pv, md, none, false, si⟩)), none⟩ := by
    show finishRun dp _ _ (runManifest tfs td dp
      (getTemplateVariables ⟨pn, pv, md, none, false, si⟩) (projectFiles false)) = _
    rw [show projectFiles false = coreManifest from rfl]
    rw [runManifest_ok hcore]
    rfl
  rw [hgenT, hgenF, hvars]
  refine ⟨rfl, rfl, by simp; decide, by simp; decide, ?_,
    by simp [List.map_map, fst_renderEntry],
    by simp [List.map_map, fst_renderEntry]⟩
  rw [List.map_append]
  have hlen : (10 : Nat) = (coreManifest.map
      (renderEntry tfs dp (getTemplateVariables ⟨pn, pv, md, none, false, si⟩))).length := by
    rw [List.length_map]
    rfl
  rw [hlen, List.take_left]

/-- Witness for C7 at a concrete template store and options. -/
theorem generateProject_examples_toggle_witness :
    (∀ p ∈ coreManifest ++ exampleManifest, ((fun _ => some "A") p.1).isSome) ∧
    (generateProject (fun _ => some "A") "T" "p" ⟨"n", "openai", "m", none, true, false⟩).writes.length = 13 :=
  ⟨by decide,
   (generateProject_examples_toggle (fun _ => some "A") "T" "p" "n" "openai" "m" false
     (by decide)).2.2.1⟩

/-- C9: when the template of some manifest entry is absent and all
earlier entries' templates are present, the run fails with the
template-not-found lookup error naming that template, and its recorded
writes are exactly the renders of the earlier manifest entries — the
walk aborts at the missing entry, leaving prior writes in place, with no
rollback and no credential file write. -/
theorem generateProject_missing_template (tfs : String → Option String)
    (td dp : String) (o : ProjectOptions) {M₁ : List (String × String)}
    {t d : String} {M₂ : List (String × String)}
    (hsplit : projectFiles o.includeExamples = M₁ ++ (t, d) :: M₂)
    (h₁ : ∀ p ∈ M₁, (tfs p.1).isSome) (ht : tfs t = none) :
    generateProject tfs td dp o =
      ⟨M₁.map (renderEntry tfs dp (getTemplateVariables o)),
       some ("Template file not found: " ++ pathJoin td t)⟩ := by
  unfold generateProject
  rw [hsplit, runManifest_missing ht h₁]
  rfl

/-- Witness for C9: the second core template is missing; the run records
exactly the first entry's write and the lookup error. -/
theorem generateProject_missing_template_witness :
    projectFiles false = [("package.json.template", "package.json")] ++
      ("tsconfig.json.template", "tsconfig.json") ::
      [("flox.nix.template", "flox.nix"),
       (".env.example.template", ".env.example"),
       (".gitignore.template", ".gitignore"),
       ("README.md.template", "README.md"),
       ("src/index.ts.template", "src/index.ts"),
       ("src/dev-chat.ts.template", "src/dev-chat.ts"),
       ("src/server.ts.template", "src/server.ts"),
       ("src/config.json.template", "src/config.json")] ∧
    generateProject
      (fun p => if p = "tsconfig.json.template" then none else some "A") "T" "p"
      ⟨"n", "openai", "m", none, false, false⟩ =
      ⟨[("package.json.template", "package.json")].map
        (renderEntry (fun p => if p = "tsconfig.json.template" then none else some "A") "p"
          (getTemplateVariables ⟨"n", "openai", "m", none, false, false⟩)),
       some ("Template file not found: " ++ pathJoin "T" "tsconfig.json.template")⟩ :=
  ⟨by decide,
   generateProject_missing_template
     (fun p => if p = "tsconfig.json.template" then none else some "A") "T" "p"
     ⟨"n", "openai", "m", none, false, false⟩
     (show projectFiles (⟨"n", "openai", "m", none, false, false⟩ : ProjectOptions).includeExamples =
        [("package.json.template", "package.json")] ++
          ("tsconfig.json.template", "tsconfig.json") ::
          [("flox.nix.template", "flox.nix"),
           (".env.example.template", ".env.example"),
           (".gitignore.template", ".gitignore"),
           ("README.md.template", "README.md"),
           ("src/index.ts.template", "src/index.ts"),
           ("src/dev-chat.ts.template", "src/dev-chat.ts"),
           ("src/server.ts.template", "src/server.ts"),
           ("src/config.json.template", "src/config.json")] by decide)
     (by decide) (by decide)⟩

/-- C8 amended: the run writes the `.env` secrets file exactly when a
truthy (nonempty) credential is supplied, its content then being the
provider's environment-variable name, an equals sign, the credential and
one trailing newline, appended after all manifest writes; a supplied
empty-string credential is falsy in the source's `if (options.apiKey)`
check and produces no secrets file. -/
theorem generateProject_env_file (tfs : String → Option String) (td dp : String)
    (o : ProjectOptions) (h : ∀ p ∈ projectFiles o.includeExamples, (tfs p.1).isSome) :
    ((∃ c, (pathJoin dp ".env", c) ∈ (generateProject tfs td dp o).writes) ↔
      (∃ k, o.apiKey = some k ∧ k ≠ "")) ∧
    (∀ k, o.apiKey = some k → k ≠ "" →
      (generateProject tfs td dp o).writes =
        (projectFiles o.includeExamples).map (renderEntry tfs dp (getTemplateVariables o)) ++
          [(pathJoin dp ".env", getProviderEnvVar o.provider ++ "=" ++ k ++ "\n")]) := by
  have hrun : runManifest tfs td dp (getTemplateVariables o) (projectFiles o.includeExamples) =
      ⟨(projectFiles o.includeExamples).map (renderEntry tfs dp (getTemplateVariables o)),
       none⟩ := runManifest_ok h
  have hmani : ∀ c, (pathJoin dp ".env", c) ∉
      (projectFiles o.includeExamples).map (renderEntry tfs dp (getTemplateVariables o)) := by
    intro c hmem
    rcases List.mem_map.mp hmem with ⟨p, hp, hpe⟩
    have hpath : pathJoin dp p.2 = pathJoin dp ".env" := congrArg Prod.fst hpe
    exact projectFiles_dest_ne_env o.includeExamples p hp (pathJoin_right_inj hpath)
  unfold generateProject
  rw [hrun]
  cases hkey : o.apiKey with
  | none =>
    rw [finishRun_none hkey]
    refine ⟨⟨?_, ?_⟩, ?_⟩
    · intro ⟨c, hc⟩
      exact absurd hc (hmani c)
    · intro ⟨k, hk, _⟩
      exact absurd hk (by simp)
    · intro k hk
      exact absurd hk (by simp)
  | some k =>
    by_cases hk : k = ""
    · rw [finishRun_emptyKey (hk ▸ hkey)]
      refine ⟨⟨?_, ?_⟩, ?_⟩
      · intro ⟨c, hc⟩
        exact absurd hc (hmani c)
      · intro ⟨k', hk', hne⟩
        have h5 : k = k' := by simpa using hk'
        subst h5
        exact absurd hk hne
      · intro k' hk' hne
        have h5 : k = k' := by simpa using hk'
        subst h5
        exact absurd hk hne
    · rw [finishRun_apiKey hkey hk]
      refine ⟨⟨?_, ?_⟩, ?_⟩
      · intro _
        exact ⟨k, rfl, hk⟩
      · intro _
        exact ⟨(getTemplateVariables o).ENV_VAR_NAME ++ "=" ++ k ++ "\n",
          List.mem_append_right _ (by simp)⟩
      · intro k' hk' _
        have h5 : k = k' := by simpa using hk'
        subst h5
        rfl

/-- Counterexample to C8 as stated: a supplied empty-string credential is
"supplied" yet produces no `.env` write, because the source's truthiness
check rejects the empty string. -/
theorem generateProject_env_cex :
    (⟨"n", "groq", "m", some "", true, false⟩ : ProjectOptions).apiKey = some "" ∧
    ((generateProject (fun _ => some "A") "T" "p"
        ⟨"n", "groq", "m", some "", true, false⟩).writes.map Prod.fst).contains
      (pathJoin "p" ".env") = false := by
  exact ⟨rfl, by decide⟩

/-- Witness for the amended C8: credential "abc123" for provider "groq"
yields the secrets write with content exactly "GROQ_API_KEY=abc123" plus
one newline, and the spelled-out content matches. -/
theorem generateProject_env_file_witness :
    (∀ p ∈ projectFiles true, ((fun _ => some "A") p.1).isSome) ∧
    getProviderEnvVar "groq" ++ "=" ++ "abc123" ++ "\n" = "GROQ_API_KEY=abc123\n" ∧
    (generateProject (fun _ => some "A") "T" "p"
        ⟨"n", "groq", "m", some "abc123", true, false⟩).writes =
      (projectFiles true).map (renderEntry (fun _ => some "A") "p"
        (getTemplateVariables ⟨"n", "groq", "m", some "abc123", true, false⟩)) ++
        [(pathJoin "p" ".env", getProviderEnvVar "groq" ++ "=" ++ "abc123" ++ "\n")] :=
  ⟨by decide, by decide,
   (generateProject_env_file (fun _ => some "A") "T" "p"
     ⟨"n", "groq", "m", some "abc123", true, false⟩ (by decide)).2 "abc123" rfl (by decide)⟩

end CreateFred
